import Mathlib

/-!
Shallow embedding of the mortgage-rate scraper (`interest_scraper.py`).

Python strings are modelled as Lean `String`; the string methods used by the
code (`strip`, `lower`, `startswith`, `endswith`, slicing, substring test,
and the two regular expressions) are implemented over `String.data`
(`List Char`) so that everything reduces in the kernel.  Rates (Python
floats holding parsed decimal literals) are modelled as exact scaled
decimals (`Dec` below), compared by value as the code compares floats.
HTML structure (BeautifulSoup tags) is modelled by the `Img`/`Cell`/`HRow`/
`HTable` structures, carrying exactly the attributes the scraper reads:
img `alt`/`title`, td text, td `class`, and table `th` presence.
-/

/-- Model of an `img` tag: the two attributes the scraper reads. -/
structure Img where
  alt : Option String
  title : Option String
deriving DecidableEq, Repr

/-- Model of a `td` cell: its text content, its `class` attribute, and the
`img` tags it contains. -/
structure Cell where
  txt : String
  cls : Option String
  imgs : List Img
deriving DecidableEq, Repr

/-- Model of a `tr` table row. -/
structure HRow where
  cells : List Cell
deriving DecidableEq, Repr

/-- Model of a `table`: whether it contains a `th` header cell, and its rows. -/
structure HTable where
  hasTh : Bool
  rows : List HRow
deriving DecidableEq, Repr

/-- Exact value of a parsed decimal literal: the number `n / 10 ^ e`.
Python floats are modelled by the exact decimal they were parsed from; the
code only ever compares rates with `<` and tests them for truthiness, and
both are implemented value-wise below. -/
structure Dec where
  n : Nat
  e : Nat
deriving DecidableEq, Repr

/-- Rational value of a `Dec`. -/
def Dec.toQ (d : Dec) : ℚ :=
  (d.n : ℚ) / (10 : ℚ) ^ d.e

/-- Value comparison `a < b` on decimals, by cross multiplication (kernel
friendly, unlike rational arithmetic). -/
def decLtB (a b : Dec) : Bool :=
  a.n * 10 ^ b.e < b.n * 10 ^ a.e

/-- One raw rate observation, the dictionaries appended to `rates` in
`parse_rates`. -/
structure Obs where
  bank : String
  tenor : String
  rate_type : String
  rate : Dec
deriving DecidableEq, Repr

/-! String primitives mirroring the Python `str` methods, written over
`String.data` so that `decide`/`rfl` can evaluate them in the kernel. -/

/-- Python `str.strip()`: drop whitespace from both ends. -/
def strTrim (s : String) : String :=
  ⟨((s.data.dropWhile Char.isWhitespace).reverse.dropWhile Char.isWhitespace).reverse⟩

/-- Python `str.lower()` (the code only lowercases ASCII names). -/
def strLower (s : String) : String :=
  ⟨s.data.map Char.toLower⟩

/-- Python `s.startswith(p)`. -/
def strStarts (s p : String) : Bool :=
  p.data.isPrefixOf s.data

/-- Python `s.endswith(p)`. -/
def strEnds (s p : String) : Bool :=
  p.data.isSuffixOf s.data

/-- Python `s[n:]` (drop the first `n` characters). -/
def strDrop (s : String) (n : Nat) : String :=
  ⟨s.data.drop n⟩

/-- Python `s[:-n]` for `n ≤ len(s)` (drop the last `n` characters). -/
def strDropRight (s : String) (n : Nat) : String :=
  ⟨s.data.take (s.data.length - n)⟩

/-- Python `len(s)` (in characters). -/
def strLen (s : String) : Nat :=
  s.data.length

/-- Python substring test `pat in s`, on character lists. -/
def substrIn (pat : List Char) : List Char → Bool
  | [] => pat.isEmpty
  | c :: t => pat.isPrefixOf (c :: t) || substrIn pat t

/-! The two regular expressions of the scraper.  `re.search(r'(\d+\.\d+)', s)`
returns the leftmost position at which a maximal digit run is followed by a
dot and at least one digit (the greedy `\d+` cannot backtrack usefully,
since every character it gives back is a digit, not a dot). -/

/-- Numeric value of a digit run. -/
def natOfDigits (l : List Char) : Nat :=
  l.foldl (fun a c => 10 * a + (c.toNat - 48)) 0

/-- Exact value of the decimal literal `ds.es`. -/
def decVal (ds es : List Char) : Dec :=
  ⟨natOfDigits ds * 10 ^ es.length + natOfDigits es, es.length⟩

/-- Try to match `\d+\.\d+` anchored at the head of `l`. -/
def matchDecimalAt (l : List Char) : Option Dec :=
  if l.takeWhile Char.isDigit = [] then none
  else
    match l.drop (l.takeWhile Char.isDigit).length with
    | '.' :: r =>
      if r.takeWhile Char.isDigit = [] then none
      else some (decVal (l.takeWhile Char.isDigit) (r.takeWhile Char.isDigit))
    | _ => none

/-- Leftmost match of `\d+\.\d+` in `l`, as performed by `re.search`. -/
def scanDecimal : List Char → Option Dec
  | [] => none
  | c :: t =>
    match matchDecimalAt (c :: t) with
    | some v => some v
    | none => scanDecimal t

/-- The literal used in the containment test `"18 months =" in text`. -/
def lit18test : List Char := "18 months =".data

/-- The literal head of the regex `18 months = (\d+\.\d+)`. -/
def lit18pat : List Char := "18 months = ".data

/-- Leftmost match of `18 months = (\d+\.\d+)` in `l` (`re.search`). -/
def scan18 : List Char → Option Dec
  | [] => none
  | c :: t =>
    if lit18pat.isPrefixOf (c :: t) then
      match matchDecimalAt ((c :: t).drop lit18pat.length) with
      | some v => some v
      | none => scan18 t
    else scan18 t

/-! The scraper functions, translated line by line. -/

/-- `BANK_MAPPING`, a Python dict with string keys, as an association list. -/
def BANK_MAPPING : List (String × String) :=
  [("ANZ", "ANZ"),
   ("ASB", "ASB"),
   ("BNZ", "BNZ"),
   ("Kiwibank", "Kiwibank"),
   ("Westpac", "Westpac"),
   ("Co-operative Bank", "Co-operative Bank"),
   ("SBS Bank", "SBS Bank"),
   ("SBS", "SBS Bank"),
   ("TSB Bank", "TSB"),
   ("TSB", "TSB"),
   ("HSBC", "HSBC"),
   ("Heartland Bank", "Heartland Bank")]

/-- `BANK_MAPPING.get(name, name)`. -/
def bankLookup (n : String) : String :=
  match BANK_MAPPING.find? (fun kv => kv.1 = n) with
  | some kv => kv.2
  | none => n

/-- All `img` tags of a row in document order (`row.find('img')` takes the
head of this list). -/
def rowImgs (r : HRow) : List Img :=
  r.cells.foldr (fun c a => c.imgs ++ a) []

/-- Python truthiness of an optional string attribute (`None` and `""` are
falsy). -/
def truthyStr : Option String → Option String
  | some t => if t = "" then none else some t
  | none => none

/-- `extract_bank_name(row)`: first img alt/title if truthy, else the first
cell text if nonempty after stripping, else the first `inst-name` cell. -/
def extract_bank_name (r : HRow) : Option String :=
  let fromImg : Option String :=
    match (rowImgs r).head? with
    | some im =>
      match truthyStr im.alt with
      | some a => some a
      | none => truthyStr im.title
    | none => none
  match fromImg with
  | some a => some a
  | none =>
    let firstCell : Option String :=
      match r.cells.head? with
      | some c => if strTrim c.txt = "" then none else some (strTrim c.txt)
      | none => none
    match firstCell with
    | some n => some n
    | none =>
      match r.cells.find? (fun c => c.cls = some "inst-name") with
      | some c => if strTrim c.txt = "" then none else some (strTrim c.txt)
      | none => none

/-- Strip a known marketing lead-in, matched case-insensitively
(`name.lower().startswith(p)` then `name[len(p):]`). -/
def stripPfx (n p : String) : String :=
  if strStarts (strLower n) p then strDrop n (strLen p) else n

/-- Strip a known marketing tail (`name.endswith(s)` then `name[:-len(s)]`). -/
def stripSfx (n s : String) : String :=
  if strEnds n s then strDropRight n (strLen s) else n

/-- `normalize_bank_name(raw_name)`. -/
def normalize_bank_name (raw : String) : Option String :=
  if raw = "" then none
  else
    let name := strTrim raw
    let name := stripPfx name "click to contact "
    let name := stripPfx name "click here to contact "
    let name := stripSfx name " Home Loans %u2013 Apply now or find out more"
    let name := stripSfx name " - creating futures."
    some (bankLookup name)

/-- `extract_rate(cell_text)`: `None` on the empty string, else the leftmost
`\d+\.\d+` match as a number. -/
def extract_rate (t : String) : Option Dec :=
  if t = "" then none else scanDecimal t.data

/-- The cell loop of `extract_special_18month_rate`: cells containing
`"18 months ="` are probed with the regex; on a regex miss the loop
continues with the remaining cells. -/
def specialGo : List Cell → Option Dec
  | [] => none
  | c :: cs =>
    let tx := strTrim c.txt
    if substrIn lit18test tx.data then
      match scan18 tx.data with
      | some v => some v
      | none => specialGo cs
    else specialGo cs

/-- `extract_special_18month_rate(row)`. -/
def extract_special_18month_rate (r : HRow) : Option Dec :=
  specialGo r.cells

/-- The positional tenor column labels of `parse_rates`. -/
def tenorCols : List String :=
  ["Variable floating", "6 months", "1 year", "2 years", "3 years",
   "4 years", "5 years"]

/-- The rate-type classification: `"Special" if "Special" in product_type
else "Standard"`. -/
def rateTypeOf (product : String) : String :=
  if substrIn "Special".data product.data then "Special" else "Standard"

/-- The bank-context update at the top of the row loop of `parse_rates`:
a truthy extracted and normalized bank name replaces `current_bank`. -/
def rowBankStep (cur : Option String) (r : HRow) : Option String :=
  match extract_bank_name r with
  | some bn =>
    if bn ≠ "" then
      match normalize_bank_name bn with
      | some nb => if nb ≠ "" then some nb else cur
      | none => cur
    else cur
  | none => cur

/-- One positional cell: emit an observation when `extract_rate` returns a
truthy (nonzero) value. -/
def cellObs (b rt tn t : String) : Option Obs :=
  match extract_rate t with
  | some v => if v.n = 0 then none else some ⟨b, tn, rt, v⟩
  | none => none

/-- `cells[0].get_text().strip()`, the product-type cell. -/
def rowProduct (r : HRow) : String :=
  match r.cells.head? with
  | some c => strTrim c.txt
  | none => ""

/-- The special 18-month emission of `parse_rates`, guarded by Python
truthiness of the extracted value. -/
def specialObs (b rt : String) (r : HRow) : List Obs :=
  match extract_special_18month_rate r with
  | some v => if v.n = 0 then [] else [⟨b, "18 months", rt, v⟩]
  | none => []

/-- The body of the row loop of `parse_rates`: update the bank context, skip
rows without a bank or with fewer than two cells, then emit the special
18-month observation and the positional observations for the first seven
data cells. -/
def processRow (cur : Option String) (r : HRow) : Option String × List Obs :=
  match rowBankStep cur r with
  | none => (none, [])
  | some b =>
    if r.cells.length < 2 then (some b, [])
    else
      (some b,
        specialObs b (rateTypeOf (rowProduct r)) r ++
          (((r.cells.drop 1).take tenorCols.length).zip tenorCols).filterMap
            (fun p => cellObs b (rateTypeOf (rowProduct r)) p.2 (strTrim p.1.txt)))

/-- The table filter of `parse_rates`: tables with no `th` and no
`inst-name` cell are skipped. -/
def isRateTable (t : HTable) : Bool :=
  t.hasTh || t.rows.any (fun r => r.cells.any (fun c => c.cls = some "inst-name"))

/-- The per-table row loop of `parse_rates`, threading the bank context. -/
def processTable (cur : Option String) (t : HTable) : Option String × List Obs :=
  if isRateTable t then
    t.rows.foldl (fun acc r =>
      ((processRow acc.1 r).1, acc.2 ++ (processRow acc.1 r).2)) (cur, [])
  else (cur, [])

/-- The table loop of `parse_rates`, threading the bank context started as
`None` once before all tables. -/
def parseTablesAux (cur : Option String) (ts : List HTable) : Option String × List Obs :=
  ts.foldl (fun acc t =>
    ((processTable acc.1 t).1, acc.2 ++ (processTable acc.1 t).2)) (cur, [])

/-- `parse_rates(html_content)`, on the table-list model of the page. -/
def parse_rates (ts : List HTable) : List Obs :=
  (parseTablesAux none ts).2

/-! The reducer `process_rates`.  The Python dict `processed_rates`, keyed by
`(bank, tenor)`, is modelled as an association list; replacing the value of
an existing key keeps its position, a fresh key is appended, matching dict
insertion-order semantics of `dict.values()`. -/

/-- Dedup key of `process_rates`: `key = (bank, tenor)`. -/
def obsKey (o : Obs) : String × String :=
  (o.bank, o.tenor)

/-- The persisted-table key `(bank, tenor, rate_type)` the spec speaks of. -/
def obsKey3 (o : Obs) : String × String × String :=
  (o.bank, o.tenor, o.rate_type)

/-- The replacement rule `if key not in processed or rate < processed[key]["rate"]`. -/
def pick (a o : Obs) : Obs :=
  if decLtB o.rate a.rate then o else a

/-- `processed_rates[key] = record`, preserving dict insertion order. -/
def upsert : List ((String × String) × Obs) → (String × String) → Obs →
    List ((String × String) × Obs)
  | [], k, o => [(k, o)]
  | (k₁, a) :: t, k, o =>
    if k₁ = k then (k₁, pick a o) :: t else (k₁, a) :: upsert t k o

/-- The fold of `process_rates` over the observation list. -/
def processAux (l : List ((String × String) × Obs)) (obs : List Obs) :
    List ((String × String) × Obs) :=
  obs.foldl (fun acc o => upsert acc (obsKey o) o) l

/-- `process_rates(rates)`: `list(processed_rates.values())`. -/
def process_rates (obs : List Obs) : List Obs :=
  (processAux [] obs).map (·.2)

/-! The `main` driver.  The fetched page is abstract: `fetch_data` returns
`None` on a network error or a non-2xx response (`raise_for_status`), which
the model represents as the `none` case of the fetched content.  The
database is external: it is modelled by its observable state — `none` when
`get_db_connection` fails, otherwise the name lists of the `banks` and
`tenors` tables read by `update_database`.  Per-row SQL failures and the
insert-versus-update distinction are not modelled: both branches increment
`updated_count`. -/

/-- `TENOR_MAPPING`: raw tenor label to canonical `{name, months}`. -/
def TENOR_MAPPING : List (String × String × Nat) :=
  [("Variable floating", ("Floating", 1)),
   ("floating", ("Floating", 1)),
   ("6 months", ("6 months", 6)),
   ("1 year", ("1 year", 12)),
   ("18 months", ("18 months", 18)),
   ("2 years", ("2 years", 24)),
   ("3 years", ("3 years", 36)),
   ("4 years", ("4 years", 48)),
   ("5 years", ("5 years", 60))]

/-- The row loop of `update_database`: skip rates whose tenor is not in
`TENOR_MAPPING`, whose bank is not in the `banks` table, or whose canonical
tenor name is not in the `tenors` table; count each surviving upsert. -/
def update_database_count (processed : List Obs)
    (banks tenors : List String) : Nat :=
  processed.foldl (fun cnt rd =>
    match TENOR_MAPPING.find? (fun kv => kv.1 = rd.tenor) with
    | none => cnt
    | some kv =>
      if rd.bank ∈ banks then
        if kv.2.1 ∈ tenors then cnt + 1 else cnt
      else cnt) 0

/-- Observable outcome of one run of `main`. -/
structure MainResult where
  status : String
  message : String
  parseRan : Bool
  dbWritesAttempted : Nat
deriving DecidableEq, Repr

/-- `main()`: abort before parsing and before any database work when the
fetch produced no content; otherwise parse and reduce, then abort if the
connection fails, else run the update loop. -/
def mainRun (fetched : Option (List HTable))
    (db : Option (List String × List String)) : MainResult :=
  match fetched with
  | none => ⟨"error", "Failed to fetch data", false, 0⟩
  | some ts =>
    match db with
    | none => ⟨"error", "Failed to connect to database", true, 0⟩
    | some (banks, tenors) =>
      ⟨"success", "",  true,
        update_database_count (process_rates (parse_rates ts)) banks tenors⟩

/-! Concrete documents reused by several statements. -/

/-- A one-cell marker row carrying a bank logo image. -/
def markerRow (b : String) : HRow :=
  ⟨[⟨"", none, [⟨some b, none⟩]⟩]⟩

/-- A plain text cell. -/
def txtCell (t : String) : Cell :=
  ⟨t, none, []⟩

/-- C2 / scenario A: the "ASB" marker row followed by the data row
`["Standard", "6.99", "6.49"]`. -/
def docA : List HTable :=
  [⟨true, [markerRow "ASB",
           ⟨[txtCell "Standard", txtCell "6.99", txtCell "6.49"]⟩]⟩]

/-- C4: a row tagged to "BNZ" whose second cell reads `18 months = 0.00`. -/
def docZero : List HTable :=
  [⟨true, [markerRow "BNZ",
           ⟨[txtCell "", txtCell "18 months = 0.00"]⟩]⟩]

/-- C10: a row tagged to "BNZ" whose cell number `j + 1` (a positional tenor
column) reads `18 months = 5.79`, all other cells empty. -/
def docSpecialAt (j : Nat) : List HTable :=
  [⟨true, [markerRow "BNZ",
           ⟨List.replicate (j + 1) (txtCell "") ++ [txtCell "18 months = 5.79"]⟩]⟩]

/-- C2: on scenario A the code attributes both observations to the bank
"Standard" — the first data cell text is re-extracted as a bank name and
replaces the "ASB" context — and labels the first one with the raw tenor
"Variable floating".  The spec expects `{ASB, Floating, Standard, 6.99}` and
`{ASB, 6 months, Standard, 6.49}`. -/
theorem parse_scenarioA_eval :
    parse_rates docA
      = [⟨"Standard", "Variable floating", "Standard", ⟨699, 2⟩⟩,
         ⟨"Standard", "6 months", "Standard", ⟨649, 2⟩⟩]
    ∧ (parse_rates docA).map Obs.bank = ["Standard", "Standard"]
    ∧ (Dec.mk 699 2).toQ = 699 / 100 ∧ (Dec.mk 649 2).toQ = 649 / 100 :=
  ⟨by decide, by decide, by norm_num [Dec.toQ], by norm_num [Dec.toQ]⟩

/-- C7: when the fetch produced no content (`fetch_data` returns `None` on a
network error or a non-2xx response), `main` returns the error status
"Failed to fetch data", parsing never runs, and no database write is
attempted, whatever the state of the database connection. -/
theorem main_fetch_failure (db : Option (List String × List String)) :
    (mainRun none db).status = "error"
    ∧ (mainRun none db).parseRan = false
    ∧ (mainRun none db).dbWritesAttempted = 0
    ∧ mainRun none db = ⟨"error", "Failed to fetch data", false, 0⟩ :=
  ⟨rfl, rfl, rfl, rfl⟩

/-- C5 counterexample: `normalize_bank_name` is not idempotent on arbitrary
strings — the case-insensitive lead-in stripping removes only one copy of
"click to contact " per pass, so a second application changes the result. -/
theorem normalize_not_idempotent :
    normalize_bank_name "click to contact click to contact ANZ"
        = some "click to contact ANZ"
    ∧ normalize_bank_name "click to contact ANZ" = some "ANZ"
    ∧ "click to contact ANZ" ≠ "ANZ" := by
  refine ⟨by decide, by decide, by decide⟩

/-- C5 amended: `normalize_bank_name` is the identity on every canonical
bank name (every value of `BANK_MAPPING`); in particular it is idempotent on
canonical names. -/
theorem normalize_canonical_identity (s : String)
    (h : s ∈ BANK_MAPPING.map (·.2)) :
    normalize_bank_name s = some s := by
  fin_cases h <;> decide

/-- C5 witness: the amended identity at the canonical name "ANZ". -/
theorem normalize_canonical_identity_witness :
    normalize_bank_name "ANZ" = some "ANZ" :=
  normalize_canonical_identity "ANZ" (by decide)

/-- C8: a cell whose first decimal match has numeric value zero (such as
"0.00") is matched by the regex but produces no observation, because both
emission sites are guarded by Python truthiness of the extracted float; the
same guard drops a zero special 18-month rate. -/
theorem zero_rate_dropped :
    extract_rate "0.00" = some ⟨0, 2⟩ ∧ (Dec.mk 0 2).toQ = 0
    ∧ (∀ b rt tn t d, extract_rate t = some d → d.n = 0 →
        cellObs b rt tn t = none)
    ∧ (∀ b rt r d, extract_special_18month_rate r = some d → d.n = 0 →
        specialObs b rt r = []) := by
  refine ⟨by decide, by norm_num [Dec.toQ], ?_, ?_⟩
  · intro b rt tn t d hd hn
    simp [cellObs, hd, hn]
  · intro b rt r d hd hn
    simp [specialObs, hd, hn]

/-- C8 witness: both zero-rate guards evaluated on concrete inputs. -/
theorem zero_rate_dropped_witness :
    cellObs "BNZ" "Standard" "6 months" "0.00" = none
    ∧ specialObs "BNZ" "Standard"
        ⟨[txtCell "", txtCell "18 months = 0.00"]⟩ = [] :=
  ⟨zero_rate_dropped.2.2.1 "BNZ" "Standard" "6 months" "0.00" ⟨0, 2⟩
      (by decide) rfl,
   zero_rate_dropped.2.2.2 "BNZ" "Standard"
      ⟨[txtCell "", txtCell "18 months = 0.00"]⟩ ⟨0, 2⟩ (by decide) rfl⟩

/-- C4 counterexample: a row attributed to "BNZ" containing the cell text
`18 months = 0.00` — the pattern `18 months = <number>` with number 0.00 —
yields no observation at all, because the extracted value is dropped by the
truthiness guard.  The claim asserts an observation `{BNZ, 18 months,
Standard, 0.00}` would be produced. -/
theorem special_zero_no_observation :
    parse_rates docZero = []
    ∧ extract_special_18month_rate ⟨[txtCell "", txtCell "18 months = 0.00"]⟩
        = some ⟨0, 2⟩
    ∧ rowBankStep (some "BNZ") ⟨[txtCell "", txtCell "18 months = 0.00"]⟩
        = some "BNZ" := by
  refine ⟨by decide, by decide, by decide⟩

/-- C4 amended: for every row processed with at least two cells, whatever
column the first cell matching `18 months = <number>` occupies, if the
matched number is nonzero then the output contains the observation
`{attributed bank, "18 months", rate type of the product cell, number}`,
where the attributed bank is the bank context after the row's own
bank-extraction step. -/
theorem special_18month_emitted (cur : Option String) (r : HRow) (b : String)
    (v : Dec) (hb : rowBankStep cur r = some b) (hlen : 2 ≤ r.cells.length)
    (hs : extract_special_18month_rate r = some v) (hv : v.n ≠ 0) :
    Obs.mk b "18 months" (rateTypeOf (rowProduct r)) v ∈ (processRow cur r).2 := by
  unfold processRow
  rw [hb]
  have hlt : ¬ r.cells.length < 2 := by omega
  simp [hlt, specialObs, hs, hv]

/-- C4 witness: the amended statement at a concrete two-cell row tagged to
"BNZ" with the special cell in the second column. -/
theorem special_18month_emitted_witness :
    Obs.mk "BNZ" "18 months"
        (rateTypeOf (rowProduct ⟨[txtCell "", txtCell "18 months = 5.79"]⟩))
        ⟨579, 2⟩
      ∈ (processRow (some "BNZ")
          ⟨[txtCell "", txtCell "18 months = 5.79"]⟩).2 :=
  special_18month_emitted (some "BNZ")
    ⟨[txtCell "", txtCell "18 months = 5.79"]⟩ "BNZ" ⟨579, 2⟩
    (by decide) (by decide) (by decide) (by decide)

/-- C10: a cell reading `18 months = 5.79` sitting in a positional tenor
column (cell number `j + 1`) of a row tagged to "BNZ" is extracted twice —
once through the special 18-month pattern and once under that column's
positional tenor, since `5.79` is also the first decimal match of the
generic extraction — for every one of the seven positional columns. -/
theorem special_cell_extracted_twice (j : Fin 7) :
    parse_rates (docSpecialAt j.val)
      = [⟨"BNZ", "18 months", "Standard", ⟨579, 2⟩⟩,
         ⟨"BNZ", tenorCols.getD j.val "", "Standard", ⟨579, 2⟩⟩] := by
  revert j
  decide

/-! Bank-context threading (C9). -/

/-- A row either leaves the bank context unchanged or installs a new bank:
the context is never cleared. -/
lemma rowBankStep_cases (cur : Option String) (r : HRow) :
    rowBankStep cur r = cur ∨ ∃ nb, rowBankStep cur r = some nb := by
  unfold rowBankStep
  cases hx : extract_bank_name r with
  | none => exact Or.inl rfl
  | some bn =>
    by_cases h1 : bn = ""
    · simp [h1]
    · simp only [ne_eq, h1, not_false_eq_true, if_true]
      cases hn : normalize_bank_name bn with
      | none => exact Or.inl rfl
      | some nb =>
        by_cases h2 : nb = ""
        · simp [h2]
        · simp only [ne_eq, h2, not_false_eq_true, if_true]
          exact Or.inr ⟨nb, rfl⟩

/-- Once a bank has been seen, the row step keeps the context populated. -/
lemma rowBankStep_isSome (b : String) (r : HRow) :
    (rowBankStep (some b) r).isSome := by
  rcases rowBankStep_cases (some b) r with h | ⟨nb, h⟩ <;> simp [h]

/-- The bank context returned by `processRow` is the one computed by the
bank-extraction step. -/
lemma processRow_fst (cur : Option String) (r : HRow) :
    (processRow cur r).1 = rowBankStep cur r := by
  unfold processRow
  cases rowBankStep cur r with
  | none => rfl
  | some b =>
    dsimp only
    split <;> rfl

/-- The row fold of one table keeps the bank context populated. -/
lemma rowsFold_isSome (rows : List HRow) :
    ∀ (b : String) (os : List Obs),
      ((rows.foldl (fun acc r =>
          ((processRow acc.1 r).1, acc.2 ++ (processRow acc.1 r).2))
        (some b, os)).1).isSome := by
  induction rows with
  | nil => intro b os; simp
  | cons r rs ih =>
    intro b os
    simp only [List.foldl_cons]
    rw [processRow_fst]
    rcases Option.isSome_iff_exists.mp (rowBankStep_isSome b r) with ⟨b', hb'⟩
    rw [hb']
    exact ih b' _

/-- One table keeps the bank context populated. -/
lemma processTable_isSome (b : String) (t : HTable) :
    ((processTable (some b) t).1).isSome := by
  unfold processTable
  split
  · exact rowsFold_isSome t.rows b []
  · rfl

/-- Restarting the table fold with an accumulated observation list only
prepends that list to the result. -/
lemma parseTablesAux_shift (ts : List HTable) :
    ∀ (cur : Option String) (os : List Obs),
      ts.foldl (fun acc t =>
          ((processTable acc.1 t).1, acc.2 ++ (processTable acc.1 t).2))
        (cur, os)
      = ((parseTablesAux cur ts).1, os ++ (parseTablesAux cur ts).2) := by
  induction ts with
  | nil => intro cur os; simp [parseTablesAux]
  | cons t ts ih =>
    intro cur os
    simp only [parseTablesAux, List.foldl_cons, List.nil_append]
    rw [ih, ih ((processTable cur t).1) (processTable cur t).2]
    simp [List.append_assoc]

/-- The table fold threads the bank context across table boundaries with no
reset: parsing `T1 ++ T2` runs `T2` from the bank state `T1` ended in. -/
lemma parseTablesAux_append (T1 T2 : List HTable) (cur : Option String) :
    parseTablesAux cur (T1 ++ T2)
      = ((parseTablesAux (parseTablesAux cur T1).1 T2).1,
         (parseTablesAux cur T1).2
           ++ (parseTablesAux (parseTablesAux cur T1).1 T2).2) := by
  show (T1 ++ T2).foldl _ (cur, []) = _
  rw [List.foldl_append]
  show T2.foldl _ (parseTablesAux cur T1) = _
  rw [show parseTablesAux cur T1
      = ((parseTablesAux cur T1).1, (parseTablesAux cur T1).2) from rfl]
  rw [parseTablesAux_shift]

/-- The whole table loop keeps the bank context populated once set. -/
lemma parseTablesAux_isSome (ts : List HTable) :
    ∀ b : String, ((parseTablesAux (some b) ts).1).isSome := by
  induction ts with
  | nil => intro b; simp [parseTablesAux]
  | cons t ts ih =>
    intro b
    simp only [parseTablesAux, List.foldl_cons, List.nil_append]
    rw [parseTablesAux_shift]
    rcases Option.isSome_iff_exists.mp (processTable_isSome b t) with ⟨b', hb'⟩
    rw [hb']
    exact ih b'

/-- An observation emitted by `cellObs` carries the attributed bank. -/
lemma cellObs_bank {b rt tn t : String} {o : Obs}
    (h : cellObs b rt tn t = some o) : o.bank = b := by
  unfold cellObs at h
  split at h
  · split at h
    · cases h
    · injection h with h
      rw [← h]
  · cases h

/-- An observation emitted by `specialObs` carries the attributed bank. -/
lemma specialObs_bank {b rt : String} {r : HRow} {o : Obs}
    (h : o ∈ specialObs b rt r) : o.bank = b := by
  unfold specialObs at h
  split at h
  · split at h
    · simp at h
    · rcases List.mem_singleton.mp h with rfl
      rfl
  · simp at h

/-- The observation list of a row whose bank context resolves and which has
at least two cells. -/
lemma processRow_snd {cur : Option String} {r : HRow} {b : String}
    (hb : rowBankStep cur r = some b) (hl : ¬ r.cells.length < 2) :
    (processRow cur r).2
      = specialObs b (rateTypeOf (rowProduct r)) r ++
          (((r.cells.drop 1).take tenorCols.length).zip tenorCols).filterMap
            (fun p => cellObs b (rateTypeOf (rowProduct r)) p.2 (strTrim p.1.txt)) := by
  unfold processRow
  rw [hb]
  dsimp only
  rw [if_neg hl]

/-- A row whose bank context resolves but which has fewer than two cells
yields no observations. -/
lemma processRow_snd_short {cur : Option String} {r : HRow} {b : String}
    (hb : rowBankStep cur r = some b) (hl : r.cells.length < 2) :
    (processRow cur r).2 = [] := by
  unfold processRow
  rw [hb]
  dsimp only
  rw [if_pos hl]

/-- Every observation of a row is attributed to the bank computed by the
row's own bank-extraction step. -/
lemma processRow_bank {cur : Option String} {r : HRow} {b : String}
    (hb : rowBankStep cur r = some b) :
    ∀ o ∈ (processRow cur r).2, o.bank = b := by
  intro o ho
  by_cases hl : r.cells.length < 2
  · rw [processRow_snd_short hb hl] at ho
    simp at ho
  · rw [processRow_snd hb hl] at ho
    rcases List.mem_append.mp ho with h | h
    · exact specialObs_bank h
    · rcases List.mem_filterMap.mp h with ⟨p, _, hc⟩
      exact cellObs_bank hc

/-- C9: the bank context is threaded through the whole document with no
reset between tables — parsing `T1 ++ T2` continues `T2` from the bank
state `T1` ended in and concatenates the observations; once some bank has
been seen the context never returns to `None`; a row carrying no bank
identifier leaves the context unchanged and is attributed to the
most-recently-seen bank; and a row reached with no bank context yet is
skipped, producing nothing. -/
theorem bank_context_persists :
    (∀ (T1 T2 : List HTable) (cur : Option String),
        parseTablesAux cur (T1 ++ T2)
          = ((parseTablesAux (parseTablesAux cur T1).1 T2).1,
             (parseTablesAux cur T1).2
               ++ (parseTablesAux (parseTablesAux cur T1).1 T2).2))
    ∧ (∀ (b : String) (ts : List HTable),
        ((parseTablesAux (some b) ts).1).isSome)
    ∧ (∀ (b : String) (r : HRow), extract_bank_name r = none →
        (processRow (some b) r).1 = some b
          ∧ ∀ o ∈ (processRow (some b) r).2, o.bank = b)
    ∧ (∀ r : HRow, extract_bank_name r = none →
        processRow none r = (none, [])) := by
  refine ⟨parseTablesAux_append, fun b ts => parseTablesAux_isSome ts b,
    ?_, ?_⟩
  · intro b r h
    have hb : rowBankStep (some b) r = some b := by
      unfold rowBankStep; rw [h]
    exact ⟨by rw [processRow_fst, hb], processRow_bank hb⟩
  · intro r h
    have hb : rowBankStep none r = none := by
      unfold rowBankStep; rw [h]
    unfold processRow
    rw [hb]

/-- C9 witness: a bankless row after an "ASB" context keeps the attribution,
for the concrete one-column row with an empty cell. -/
theorem bank_context_persists_witness :
    (processRow (some "ASB") ⟨[txtCell ""]⟩).1 = some "ASB"
      ∧ ∀ o ∈ (processRow (some "ASB") ⟨[txtCell ""]⟩).2, o.bank = "ASB" :=
  bank_context_persists.2.2.1 "ASB" ⟨[txtCell ""]⟩ (by decide)

/-! Malformed cells (C6): a declarative reading of the regex and the
soundness of the scanners with respect to it. -/

/-- Declarative statement that `l` contains a substring matching the regex:
some digits, a dot, some digits. -/
def HasDecimalSub (l : List Char) : Prop :=
  ∃ a d1 d2 b, l = a ++ d1 ++ '.' :: d2 ++ b
    ∧ d1 ≠ [] ∧ (∀ c ∈ d1, c.isDigit) ∧ d2 ≠ [] ∧ (∀ c ∈ d2, c.isDigit)

/-- A cons on the left preserves containment of a decimal substring. -/
lemma HasDecimalSub.cons {l : List Char} (c : Char) (h : HasDecimalSub l) :
    HasDecimalSub (c :: l) := by
  rcases h with ⟨a, d1, d2, b, heq, h1, h2, h3, h4⟩
  exact ⟨c :: a, d1, d2, b, by rw [heq]; rfl, h1, h2, h3, h4⟩

/-- A string of fewer than three characters has no decimal substring. -/
lemma short_not_hasDecimal {l : List Char} (h : l.length < 3) :
    ¬ HasDecimalSub l := by
  rintro ⟨a, d1, d2, b, heq, h1, _, h3, _⟩
  rw [heq] at h
  have p1 := List.length_pos.mpr h1
  have p3 := List.length_pos.mpr h3
  simp only [List.length_append, List.length_cons] at h
  omega

/-- Members of a `takeWhile` satisfy the predicate. -/
lemma mem_takeWhile_prop (p : Char → Bool) :
    ∀ (l : List Char) (c : Char), c ∈ l.takeWhile p → p c := by
  intro l
  induction l with
  | nil => intro c h; cases h
  | cons a t ih =>
    intro c h
    rw [List.takeWhile_cons] at h
    by_cases hp : p a
    · rw [if_pos hp] at h
      rcases List.mem_cons.mp h with rfl | h
      · exact hp
      · exact ih c h
    · rw [if_neg hp] at h
      cases h

/-- Taking the length of the `takeWhile` run recovers it. -/
lemma take_takeWhile_length (p : Char → Bool) :
    ∀ l : List Char, l.take (l.takeWhile p).length = l.takeWhile p := by
  intro l
  induction l with
  | nil => rfl
  | cons a t ih =>
    rw [List.takeWhile_cons]
    by_cases hp : p a
    · rw [if_pos hp]
      simpa using ih
    · rw [if_neg hp]
      rfl

/-- Splitting a list after its leading `takeWhile` run. -/
lemma takeWhile_append_drop (p : Char → Bool) (l : List Char) :
    l.takeWhile p ++ l.drop (l.takeWhile p).length = l := by
  conv_rhs => rw [← List.take_append_drop (l.takeWhile p).length l]
  rw [take_takeWhile_length]

/-- A successful anchored match exhibits a decimal at the head of `l`. -/
lemma matchDecimalAt_decomp {l : List Char} {v : Dec}
    (h : matchDecimalAt l = some v) :
    ∃ d1 d2 b, l = d1 ++ '.' :: d2 ++ b
      ∧ d1 ≠ [] ∧ (∀ c ∈ d1, c.isDigit) ∧ d2 ≠ [] ∧ (∀ c ∈ d2, c.isDigit) := by
  unfold matchDecimalAt at h
  split at h
  · cases h
  · rename_i hds
    split at h
    · rename_i r hr
      split at h
      · cases h
      · rename_i hes
        refine ⟨l.takeWhile Char.isDigit, r.takeWhile Char.isDigit,
          r.drop (r.takeWhile Char.isDigit).length, ?_, hds,
          mem_takeWhile_prop Char.isDigit l, hes,
          mem_takeWhile_prop Char.isDigit r⟩
        have h0 : l.takeWhile Char.isDigit ++ '.' :: r = l := by
          rw [← hr]
          exact takeWhile_append_drop Char.isDigit l
        conv_lhs => rw [← h0]
        conv_lhs => rw [← takeWhile_append_drop Char.isDigit r]
        simp [List.append_assoc]
    · cases h

/-- Soundness of the generic scanner: a match implies a decimal substring. -/
lemma scanDecimal_some_has :
    ∀ {l : List Char} {v : Dec}, scanDecimal l = some v → HasDecimalSub l := by
  intro l
  induction l with
  | nil => intro v h; cases h
  | cons c t ih =>
    intro v h
    rw [show scanDecimal (c :: t)
        = (match matchDecimalAt (c :: t) with
           | some w => some w
           | none => scanDecimal t) from rfl] at h
    rcases hm : matchDecimalAt (c :: t) with _ | w <;> rw [hm] at h
    · exact HasDecimalSub.cons c (ih h)
    · rcases matchDecimalAt_decomp hm with ⟨d1, d2, b, heq, h1, h2, h3, h4⟩
      exact ⟨[], d1, d2, b, by rw [heq]; rfl, h1, h2, h3, h4⟩

/-- Soundness of the special 18-month scanner: a match implies a decimal
substring (sitting right after the literal). -/
lemma scan18_some_has :
    ∀ {l : List Char} {v : Dec}, scan18 l = some v → HasDecimalSub l := by
  intro l
  induction l with
  | nil => intro v h; cases h
  | cons c t ih =>
    intro v h
    rw [show scan18 (c :: t)
        = (if lit18pat.isPrefixOf (c :: t) then
             match matchDecimalAt ((c :: t).drop lit18pat.length) with
             | some w => some w
             | none => scan18 t
           else scan18 t) from rfl] at h
    split at h
    · rcases hm : matchDecimalAt ((c :: t).drop lit18pat.length) with _ | w <;>
        rw [hm] at h
      · exact HasDecimalSub.cons c (ih h)
      · rcases matchDecimalAt_decomp hm with ⟨d1, d2, b, heq, h1, h2, h3, h4⟩
        refine ⟨(c :: t).take lit18pat.length, d1, d2, b, ?_, h1, h2, h3, h4⟩
        have h0 : (c :: t).take lit18pat.length ++ (d1 ++ '.' :: d2 ++ b)
            = c :: t := by
          rw [← heq]
          exact List.take_append_drop lit18pat.length (c :: t)
        conv_lhs => rw [← h0]
        simp [List.append_assoc]
    · exact HasDecimalSub.cons c (ih h)

/-- A cell text with no decimal substring yields no rate. -/
lemma extract_rate_none {t : String} (h : ¬ HasDecimalSub t.data) :
    extract_rate t = none := by
  unfold extract_rate
  split
  · rfl
  · rcases hs : scanDecimal t.data with _ | v
    · rfl
    · exact absurd (scanDecimal_some_has hs) h

/-- If no cell text contains a decimal substring the special scanner finds
nothing. -/
lemma specialGo_none :
    ∀ cs : List Cell, (∀ c ∈ cs, ¬ HasDecimalSub (strTrim c.txt).data) →
      specialGo cs = none := by
  intro cs
  induction cs with
  | nil => intro _; rfl
  | cons c t ih =>
    intro h
    rw [show specialGo (c :: t)
        = (if substrIn lit18test (strTrim c.txt).data then
             match scan18 (strTrim c.txt).data with
             | some v => some v
             | none => specialGo t
           else specialGo t) from rfl]
    split
    · rcases hs : scan18 (strTrim c.txt).data with _ | v
      · exact ih fun d hd => h d (List.mem_cons_of_mem c hd)
      · exact absurd (scan18_some_has hs) (h c (List.mem_cons_self c t))
    · exact ih fun d hd => h d (List.mem_cons_of_mem c hd)

/-- C6: a cell text that is empty or contains no substring matching the
decimal regex produces nothing — `extract_rate` returns `None`, the
positional emission is empty, and a whole row of such cells contributes
zero observations; all functions involved are total, so no error is
raised. -/
theorem malformed_cells_dropped :
    (∀ t : String, ¬ HasDecimalSub t.data → extract_rate t = none)
    ∧ (∀ b rt tn t, ¬ HasDecimalSub t.data → cellObs b rt tn t = none)
    ∧ (∀ (cur : Option String) (r : HRow),
        (∀ c ∈ r.cells, ¬ HasDecimalSub (strTrim c.txt).data) →
        (processRow cur r).2 = []) := by
  refine ⟨fun t h => extract_rate_none h, ?_, ?_⟩
  · intro b rt tn t h
    unfold cellObs
    rw [extract_rate_none h]
  · intro cur r h
    rcases hb : rowBankStep cur r with _ | b
    · unfold processRow
      rw [hb]
    · by_cases hl : r.cells.length < 2
      · exact processRow_snd_short hb hl
      · rw [processRow_snd hb hl]
        have hsp : specialObs b (rateTypeOf (rowProduct r)) r = [] := by
          unfold specialObs extract_special_18month_rate
          rw [specialGo_none r.cells h]
        rw [hsp, List.nil_append]
        rw [List.filterMap_eq_nil_iff]
        intro p hp
        have hc : p.1 ∈ r.cells :=
          List.mem_of_mem_drop (List.mem_of_mem_take (List.of_mem_zip hp).1)
        unfold cellObs
        rw [extract_rate_none (h p.1 hc)]

/-- C6 witness: the empty cell, the cell "-", and a full row of such cells,
all yield nothing. -/
theorem malformed_cells_dropped_witness :
    extract_rate "-" = none ∧ extract_rate "" = none
    ∧ (processRow (some "ASB") ⟨[txtCell "-", txtCell ""]⟩).2 = [] :=
  ⟨malformed_cells_dropped.1 "-" (short_not_hasDecimal (by decide)),
   malformed_cells_dropped.1 "" (short_not_hasDecimal (by decide)),
   malformed_cells_dropped.2.2 (some "ASB") ⟨[txtCell "-", txtCell ""]⟩ (by
     intro c hc
     rcases List.mem_cons.mp hc with rfl | hc
     · exact short_not_hasDecimal (by decide)
     · rcases List.mem_cons.mp hc with rfl | hc
       · exact short_not_hasDecimal (by decide)
       · cases hc)⟩

/-! The reducer (C1, C3): lookup characterization of `process_rates`. -/

/-- Lookup in the association list modelling the Python dict. -/
def assocFind (l : List ((String × String) × Obs)) (k : String × String) :
    Option Obs :=
  (l.find? (fun p => decide (p.1 = k))).map (·.2)

/-- Lookup steps through a cons cell by key comparison. -/
lemma assocFind_cons (k₁ k : String × String) (a : Obs)
    (t : List ((String × String) × Obs)) :
    assocFind ((k₁, a) :: t) k = if k₁ = k then some a else assocFind t k := by
  by_cases h : k₁ = k
  · subst h
    simp [assocFind, List.find?_cons]
  · simp [assocFind, List.find?_cons, h]

/-- Lookup after a dict store: the stored key now maps to the new record
(or to `pick old new` when it was present); other keys are unchanged. -/
lemma assocFind_upsert (l : List ((String × String) × Obs))
    (k : String × String) (o : Obs) (k' : String × String) :
    assocFind (upsert l k o) k'
      = if k' = k then
          some (match assocFind l k with
                | none => o
                | some a => pick a o)
        else assocFind l k' := by
  induction l with
  | nil =>
    show assocFind [(k, o)] k' = _
    rw [assocFind_cons]
    by_cases h : k' = k
    · subst h
      simp [assocFind]
    · rw [if_neg (fun hh => h hh.symm), if_neg h]
  | cons q t ih =>
    obtain ⟨k₁, a⟩ := q
    show assocFind (if k₁ = k then (k₁, pick a o) :: t
        else (k₁, a) :: upsert t k o) k' = _
    by_cases h1 : k₁ = k
    · rw [if_pos h1]
      subst h1
      rw [assocFind_cons, assocFind_cons]
      by_cases h2 : k' = k₁
      · subst h2
        simp
      · rw [if_neg (fun hh => h2 hh.symm), if_neg h2,
          assocFind_cons, if_neg (fun hh => h2 hh.symm)]
    · rw [if_neg h1]
      rw [assocFind_cons k₁ k' a (upsert t k o), ih,
        assocFind_cons k₁ k a t, assocFind_cons k₁ k' a t,
        if_neg h1]
      by_cases h2 : k₁ = k'
      · subst h2
        rw [if_pos rfl, if_neg h1, if_pos rfl]
      · rw [if_neg h2, if_neg h2]

/-- The dict store preserves the invariant that every stored record carries
its own key. -/
lemma upsert_kv {l : List ((String × String) × Obs)} {k : String × String}
    {o : Obs} (hl : ∀ p ∈ l, obsKey p.2 = p.1) (ho : obsKey o = k) :
    ∀ p ∈ upsert l k o, obsKey p.2 = p.1 := by
  induction l with
  | nil =>
    intro p hp
    rcases List.mem_singleton.mp hp with rfl
    exact ho
  | cons q t ih =>
    obtain ⟨k₁, a⟩ := q
    intro p hp
    replace hp : p ∈ (if k₁ = k then (k₁, pick a o) :: t
        else (k₁, a) :: upsert t k o) := hp
    by_cases h1 : k₁ = k
    · rw [if_pos h1] at hp
      rcases List.mem_cons.mp hp with rfl | hp
      · show obsKey (pick a o) = k₁
        unfold pick
        split
        · rw [ho, h1]
        · exact hl (k₁, a) (List.mem_cons_self _ _)
      · exact hl p (List.mem_cons_of_mem _ hp)
    · rw [if_neg h1] at hp
      rcases List.mem_cons.mp hp with rfl | hp
      · exact hl (k₁, a) (List.mem_cons_self _ _)
      · exact ih (fun q hq => hl q (List.mem_cons_of_mem _ hq)) p hp

/-- Every record stored by the reducer fold carries its own key. -/
lemma processAux_kv (obs : List Obs) :
    ∀ l, (∀ p ∈ l, obsKey p.2 = p.1) →
      ∀ p ∈ processAux l obs, obsKey p.2 = p.1 := by
  induction obs with
  | nil => intro l hl; exact hl
  | cons o t ih =>
    intro l hl
    exact ih (upsert l (obsKey o) o) (upsert_kv hl rfl)

/-- The dict store leaves the key list unchanged, or appends the fresh key. -/
lemma upsert_keys {l : List ((String × String) × Obs)} {k : String × String}
    {o : Obs} :
    (upsert l k o).map (·.1)
      = if k ∈ l.map (·.1) then l.map (·.1) else l.map (·.1) ++ [k] := by
  induction l with
  | nil => simp [upsert]
  | cons q t ih =>
    obtain ⟨k₁, a⟩ := q
    show (if k₁ = k then (k₁, pick a o) :: t
        else (k₁, a) :: upsert t k o).map (·.1) = _
    by_cases h1 : k₁ = k
    · subst h1
      simp
    · have h1x : ¬ k = k₁ := fun hh => h1 hh.symm
      rw [if_neg h1, List.map_cons, ih]
      by_cases h : k ∈ t.map (·.1)
      · simp [h, h1x]
      · simp [h, h1x]

/-- The dict store preserves distinctness of the stored keys. -/
lemma upsert_keys_nodup {l : List ((String × String) × Obs)}
    {k : String × String} {o : Obs} (h : (l.map (·.1)).Nodup) :
    ((upsert l k o).map (·.1)).Nodup := by
  rw [upsert_keys]
  split
  · exact h
  · rename_i hk
    rw [List.nodup_append]
    exact ⟨h, List.nodup_singleton k, by simpa using hk⟩

/-- The reducer fold keeps the stored keys distinct. -/
lemma processAux_keys_nodup (obs : List Obs) :
    ∀ l, ((l.map (·.1)).Nodup) → ((processAux l obs).map (·.1)).Nodup := by
  induction obs with
  | nil => intro l hl; exact hl
  | cons o t ih =>
    intro l hl
    exact ih (upsert l (obsKey o) o) (upsert_keys_nodup hl)

/-- Searching the stored records by key is the dict lookup, given the
key-carrying invariant. -/
lemma find_map_values (l : List ((String × String) × Obs))
    (k : String × String) (hkv : ∀ p ∈ l, obsKey p.2 = p.1) :
    (l.map (·.2)).find? (fun x => decide (obsKey x = k)) = assocFind l k := by
  induction l with
  | nil => rfl
  | cons p t ih =>
    obtain ⟨k₁, a⟩ := p
    have ha : obsKey a = k₁ := hkv (k₁, a) (List.mem_cons_self _ _)
    rw [List.map_cons, assocFind_cons]
    by_cases h : k₁ = k
    · subst h
      rw [if_pos rfl]
      rw [List.find?_cons_of_pos _ (by simp [ha])]
    · rw [if_neg h]
      rw [List.find?_cons_of_neg _ (by simp [ha, h])]
      exact ih (fun q hq => hkv q (List.mem_cons_of_mem _ hq))

/-- Master lemma: lookup after folding the whole observation list equals
the strict-minimum fold over the key's group, continued from whatever the
accumulator already held for that key. -/
lemma assocFind_processAux (obs : List Obs) :
    ∀ (l : List ((String × String) × Obs)) (k : String × String),
      assocFind (processAux l obs) k
        = match assocFind l k, obs.filter (fun x => decide (obsKey x = k)) with
          | some a, g => some (g.foldl pick a)
          | none, [] => none
          | none, h :: t => some (t.foldl pick h) := by
  induction obs with
  | nil =>
    intro l k
    cases hal : assocFind l k <;> simp [processAux, hal]
  | cons o t ih =>
    intro l k
    have hstep : processAux l (o :: t) = processAux (upsert l (obsKey o) o) t :=
      rfl
    rw [hstep, ih]
    by_cases hk : obsKey o = k
    · subst hk
      rw [show (o :: t).filter (fun x => decide (obsKey x = obsKey o))
          = o :: t.filter (fun x => decide (obsKey x = obsKey o)) by
        simp [List.filter_cons]]
      rw [assocFind_upsert, if_pos rfl]
      cases hal : assocFind l (obsKey o) with
      | none => simp
      | some a => simp [List.foldl_cons]
    · rw [show (o :: t).filter (fun x => decide (obsKey x = k))
          = t.filter (fun x => decide (obsKey x = k)) by
        simp [List.filter_cons, hk]]
      rw [assocFind_upsert, if_neg (fun hh => hk hh.symm)]

/-- Master lemma specialized to the empty initial dict of `process_rates`. -/
lemma assocFind_processAux_nil (obs : List Obs) (k : String × String) :
    assocFind (processAux [] obs) k
      = match obs.filter (fun x => decide (obsKey x = k)) with
        | [] => none
        | h :: t => some (t.foldl pick h) := by
  rw [assocFind_processAux obs [] k]
  cases obs.filter (fun x => decide (obsKey x = k)) <;> rfl

/-- The boolean decimal comparison agrees with the rational order. -/
lemma decLtB_iff {a b : Dec} : decLtB a b = true ↔ a.toQ < b.toQ := by
  unfold decLtB Dec.toQ
  rw [decide_eq_true_eq]
  rw [div_lt_div_iff₀ (by positivity) (by positivity)]
  constructor <;> intro h
  · exact_mod_cast h
  · exact_mod_cast h

/-- The replacement rule never increases the kept rate. -/
lemma pick_rate_le (a o : Obs) : (pick a o).rate.toQ ≤ a.rate.toQ := by
  unfold pick
  split
  · rename_i h
    exact le_of_lt (decLtB_iff.mp h)
  · exact le_refl _

/-- The reducer fold never increases the kept rate. -/
lemma foldl_pick_le (t : List Obs) :
    ∀ a : Obs, ((t.foldl pick a).rate).toQ ≤ a.rate.toQ := by
  induction t with
  | nil => intro a; exact le_refl _
  | cons o t ih =>
    intro a
    rw [List.foldl_cons]
    exact le_trans (ih (pick a o)) (pick_rate_le a o)

/-- The reducer fold keeps the first observation attaining the minimum
rate: everything before it in the group is strictly larger, everything
after it at least as large. -/
lemma foldl_pick_firstMin (t : List Obs) :
    ∀ a : Obs,
      ∃ l1 l2, a :: t = l1 ++ (t.foldl pick a) :: l2
        ∧ (∀ o ∈ l1, (t.foldl pick a).rate.toQ < o.rate.toQ)
        ∧ (∀ o ∈ l2, (t.foldl pick a).rate.toQ ≤ o.rate.toQ) := by
  induction t with
  | nil =>
    intro a
    exact ⟨[], [], rfl, by simp, by simp⟩
  | cons o t ih =>
    intro a
    rw [List.foldl_cons]
    by_cases h : decLtB o.rate a.rate = true
    · have hp : pick a o = o := by unfold pick; rw [if_pos h]
      rw [hp]
      rcases ih o with ⟨l1, l2, heq, h1, h2⟩
      refine ⟨a :: l1, l2, ?_, ?_, h2⟩
      · rw [List.cons_append, ← heq]
      · intro x hx
        rcases List.mem_cons.mp hx with rfl | hx
        · exact lt_of_le_of_lt (foldl_pick_le t o) (decLtB_iff.mp h)
        · exact h1 x hx
    · have hp : pick a o = a := by unfold pick; rw [if_neg h]
      rw [hp]
      have hoa : a.rate.toQ ≤ o.rate.toQ :=
        le_of_not_lt (fun hlt => h (decLtB_iff.mpr hlt))
      rcases ih a with ⟨l1, l2, heq, h1, h2⟩
      cases l1 with
      | nil =>
        rw [List.nil_append] at heq
        injection heq with hw ht
        refine ⟨[], o :: l2, ?_, by simp, ?_⟩
        · rw [List.nil_append, ← hw, ← ht]
        · intro x hx
          rcases List.mem_cons.mp hx with rfl | hx
          · rw [← hw]
            exact hoa
          · exact h2 x hx
      | cons p l1x =>
        rw [List.cons_append] at heq
        injection heq with hpa ht
        have hwa : (t.foldl pick a).rate.toQ < a.rate.toQ := by
          have hx := h1 p (List.mem_cons_self _ _)
          rw [← hpa] at hx
          exact hx
        refine ⟨a :: o :: l1x, l2, ?_, ?_, h2⟩
        · rw [List.cons_append, List.cons_append, ← ht]
        · intro x hx
          rcases List.mem_cons.mp hx with rfl | hx
          · exact hwa
          · rcases List.mem_cons.mp hx with rfl | hx
            · exact lt_of_lt_of_le hwa hoa
            · exact h1 x (List.mem_cons_of_mem _ hx)

/-- The keys of the reducer output are the keys of the underlying dict. -/
lemma process_rates_keys (obs : List Obs) :
    (process_rates obs).map obsKey = (processAux [] obs).map (·.1) := by
  unfold process_rates
  rw [List.map_map]
  exact List.map_congr_left
    (fun p hp => processAux_kv obs [] (by simp) p hp)

/-- C1 amended: the reducer keys its dict on `(bank, tenor)` — not on
`(bank, tenor, rate_type)` — and per such pair the emitted record is the
first observation of the pair's group attaining the group's minimum rate
(replacement happens only on strictly-less-than, so ties keep the first
encountered); a pair appears in the output exactly when it appears in the
input, and the output keys are pairwise distinct. -/
theorem process_rates_min_per_pair (obs : List Obs) (k : String × String) :
    (((process_rates obs).find? (fun x => decide (obsKey x = k)) = none)
        ↔ obs.filter (fun x => decide (obsKey x = k)) = [])
    ∧ (∀ w, (process_rates obs).find? (fun x => decide (obsKey x = k)) = some w →
        ∃ l1 l2, obs.filter (fun x => decide (obsKey x = k)) = l1 ++ w :: l2
          ∧ (∀ o ∈ l1, w.rate.toQ < o.rate.toQ)
          ∧ (∀ o ∈ l2, w.rate.toQ ≤ o.rate.toQ))
    ∧ ((process_rates obs).map obsKey).Nodup := by
  have hkv : ∀ p ∈ processAux [] obs, obsKey p.2 = p.1 :=
    processAux_kv obs [] (by simp)
  have hfind : (process_rates obs).find? (fun x => decide (obsKey x = k))
      = assocFind (processAux [] obs) k := find_map_values _ k hkv
  refine ⟨?_, ?_, ?_⟩
  · rw [hfind, assocFind_processAux_nil]
    cases hflt : obs.filter (fun x => decide (obsKey x = k)) with
    | nil => simp
    | cons h t => simp
  · intro w hw
    rw [hfind, assocFind_processAux_nil] at hw
    cases hflt : obs.filter (fun x => decide (obsKey x = k)) with
    | nil => rw [hflt] at hw; cases hw
    | cons h t =>
      rw [hflt] at hw
      injection hw with hw
      rcases foldl_pick_firstMin t h with ⟨l1, l2, heq, h1, h2⟩
      rw [hw] at heq h1 h2
      exact ⟨l1, l2, heq, h1, h2⟩
  · rw [process_rates_keys]
    exact processAux_keys_nodup obs [] (by simp)

/-- The two-observation input of scenario B extended with a distinct rate
type: same bank and tenor, different rate types. -/
def exObsPair : List Obs :=
  [⟨"ASB", "6 months", "Standard", ⟨649, 2⟩⟩,
   ⟨"ASB", "6 months", "Special", ⟨639, 2⟩⟩]

/-- C1 counterexample: two observations sharing `(bank, tenor)` but with
distinct rate types collapse to a single output record — the claim's one
record per distinct `(bank, tenor, rate_type)` triple would require two.
The `(ASB, 6 months, Standard)` group is nonempty yet no record with rate
type "Standard" is emitted. -/
theorem process_rates_not_per_triple :
    process_rates exObsPair = [⟨"ASB", "6 months", "Special", ⟨639, 2⟩⟩]
    ∧ (exObsPair.map obsKey3).dedup.length = 2
    ∧ (process_rates exObsPair).length = 1
    ∧ (process_rates exObsPair).filter
        (fun x => decide (x.rate_type = "Standard")) = [] := by
  refine ⟨by decide, by decide, by decide, by decide⟩

/-- C1 witness: the amended per-pair minimum characterization evaluated on
the concrete two-observation input. -/
theorem process_rates_min_per_pair_witness :
    ∃ l1 l2,
      exObsPair.filter (fun x => decide (obsKey x = ("ASB", "6 months")))
        = l1 ++ (⟨"ASB", "6 months", "Special", ⟨639, 2⟩⟩ : Obs) :: l2
      ∧ (∀ o ∈ l1,
          (Obs.mk "ASB" "6 months" "Special" ⟨639, 2⟩).rate.toQ < o.rate.toQ)
      ∧ (∀ o ∈ l2,
          (Obs.mk "ASB" "6 months" "Special" ⟨639, 2⟩).rate.toQ ≤ o.rate.toQ) :=
  (process_rates_min_per_pair exObsPair ("ASB", "6 months")).2.1
    ⟨"ASB", "6 months", "Special", ⟨639, 2⟩⟩ (by decide)

/-- C3: the reducer never emits two records with the same
`(bank, tenor, rate_type)` key — its dict key `(bank, tenor)` is coarser,
so the output keys are distinct already at the pair level. -/
theorem process_rates_no_duplicate_triples (obs : List Obs) :
    (process_rates obs).Pairwise (fun a b => obsKey3 a ≠ obsKey3 b) := by
  have hnodup : ((process_rates obs).map obsKey).Nodup := by
    rw [process_rates_keys]
    exact processAux_keys_nodup obs [] (by simp)
  have hpair : (process_rates obs).Pairwise (fun a b => obsKey a ≠ obsKey b) :=
    List.pairwise_map.mp hnodup
  exact hpair.imp
    (fun hne h3 => hne (congrArg (fun p => (p.1, p.2.1)) h3))
